import Mathlib

/-!
Verification of the hf-web-client Fabric transaction pipeline.

The definitions below are shallow embeddings of the TypeScript source:
byte strings are `List Nat` (each element a byte value below 256),
fallible operations return `Except`/`Option`, and the runtime's external
collaborators (SHA-256, PBKDF2, AES-GCM, zxcvbn, JSON.parse, protobuf
serialization, Shamir splitting) are passed in as function parameters,
exactly at the call boundaries where the source invokes them.
-/

namespace HFClient

/-! ## Byte-string utilities (src/crypto/signing.ts, src/protobuf/builder.ts) -/

/-- Big-endian interpretation of a byte list as a natural number.
Mirrors `new BN(bytes)` from bn.js. -/
def bytesToNat (l : List Nat) : Nat :=
  l.foldl (fun acc b => acc * 256 + b) 0

/-- Fixed-width big-endian byte emission, mirroring bn.js
`toArray("be", len)`: the last byte is the least significant. -/
def natToBytesBE : Nat → Nat → List Nat
  | 0, _ => []
  | len + 1, n => natToBytesBE len (n / 256) ++ [n % 256]

/-- Lowercase hexadecimal digit, as produced by JS `Number.toString(16)`. -/
def hexDigitChar (d : Nat) : Char :=
  if d < 10 then Char.ofNat (48 + d) else Char.ofNat (87 + d)

/-- Digits of `n` in base 16, most significant first; mirrors JS
`n.toString(16)` (a lone `"0"` for zero). -/
def toHexDigits (n : Nat) : List Char :=
  if _h : n < 16 then [hexDigitChar n]
  else toHexDigits (n / 16) ++ [hexDigitChar (n % 16)]
  decreasing_by exact Nat.div_lt_self (by omega) (by omega)

/-- JS `b.toString(16).padStart(2, "0")` for one byte. -/
def byteToHexPadded (b : Nat) : List Char :=
  let ds := toHexDigits b
  if ds.length < 2 then '0' :: ds else ds

/-- The `bytesToHexString` from src/protobuf/builder.ts: bytes rendered as a
lowercase hex string, two characters per byte. -/
def bytesToHexString (bytes : List Nat) : String :=
  ⟨(bytes.map byteToHexPadded).flatten⟩

/-! ## Signer (src/crypto/signing.ts) -/

/-- The P-256 group order `N` from src/crypto/signing.ts. -/
def pOrderN : Nat :=
  0xffffffff00000000ffffffffffffffffbce6faada7179e84f3b9cac2fc632551

/-- The `HALF_N = N.shrn(1)` from src/crypto/signing.ts. -/
def halfN : Nat := pOrderN / 2

/-- The stripping loop of `rsToDer`:
`while (r.length > 1 && r[0] === 0 && r[1] < 0x80) r = r.slice(1)`. -/
def stripZeros : List Nat → List Nat
  | 0 :: b :: rest => if b < 0x80 then stripZeros (b :: rest) else 0 :: b :: rest
  | l => l

/-- The sign-padding step of `rsToDer`:
`if (r[0] >= 0x80) r = new Uint8Array([0, ...r])`. -/
def padPositive : List Nat → List Nat
  | [] => []
  | b :: rest => if 0x80 ≤ b then 0 :: b :: rest else b :: rest

/-- The `rsToDer` from src/crypto/signing.ts: converts an `R||S` signature to
ASN.1 DER `SEQUENCE { INTEGER r, INTEGER s }`. -/
def rsToDer (rs : List Nat) : List Nat :=
  let n := rs.length / 2
  let r := padPositive (stripZeros (rs.take n))
  let s := padPositive (stripZeros (rs.drop n))
  let encoded := 0x02 :: r.length :: (r ++ 0x02 :: s.length :: s)
  0x30 :: encoded.length :: encoded

/-- The `preventMalleability` from src/crypto/signing.ts: low-S normalization.
If `S > N/2` the S half is replaced by `N - S`, re-emitted as 32
big-endian bytes. -/
def preventMalleability (signature : List Nat) : List Nat :=
  let r := signature.take (signature.length / 2)
  let s := signature.drop (signature.length / 2)
  if halfN < bytesToNat s then
    r ++ natToBytesBE 32 (pOrderN - bytesToNat s)
  else
    r ++ s

/-- The pure part of `signFabricSignature` from src/crypto/signing.ts:
the custodian's raw 64-byte signature is low-S normalized and then
DER-encoded. -/
def signEncode (rawSignature : List Nat) : List Nat :=
  rsToDer (preventMalleability rawSignature)

/-- A DER INTEGER body is minimally encoded and positive: its leading
byte has a clear high bit, and a leading zero byte is only present when
it is required by a set high bit on the following byte. -/
def ValidDerInt (l : List Nat) : Prop :=
  match l with
  | [] => False
  | [b] => b < 0x80
  | a :: b :: _ => a < 0x80 ∧ (a = 0 → 0x80 ≤ b)

/-! ## UTF-8 codec (TextEncoder / TextDecoder collaborators)

`TextEncoder.encode` and `TextDecoder("utf-8", { fatal: true }).decode`
are modelled bit-exactly: the encoder maps each Unicode scalar value to
its UTF-8 bytes, and the strict decoder accepts exactly the well-formed
sequences of the WHATWG UTF-8 decoder (no overlong forms, no
surrogates, no values above U+10FFFF). -/

/-- UTF-8 bytes of one Unicode scalar value. -/
def utf8EncodeScalar (v : Nat) : List Nat :=
  if v < 0x80 then [v]
  else if v < 0x800 then [0xC0 + v / 0x40, 0x80 + v % 0x40]
  else if v < 0x10000 then
    [0xE0 + v / 0x1000, 0x80 + v / 0x40 % 0x40, 0x80 + v % 0x40]
  else
    [0xF0 + v / 0x40000, 0x80 + v / 0x1000 % 0x40,
     0x80 + v / 0x40 % 0x40, 0x80 + v % 0x40]

/-- The `TextEncoder.encode`: the UTF-8 bytes of a string. -/
def utf8Encode (s : String) : List Nat :=
  (s.data.map (fun c => utf8EncodeScalar c.toNat)).flatten

/-- One step per decoded scalar of the strict WHATWG UTF-8 decoder:
the lead byte classifies the sequence length, each continuation byte
must lie in its admissible range (restricted for leads `0xE0`, `0xED`,
`0xF0` and `0xF4`, which excludes overlong forms, surrogates and
values above U+10FFFF), and a missing continuation byte reads as `0`,
which fails its range check. The `fuel` argument only bounds the
number of decoded scalars; one byte is consumed per scalar at least,
so any `fuel ≥` the byte count gives the decoder's value. -/
def utf8DecodeLoop : Nat → List Nat → Option (List Nat)
  | _, [] => some []
  | 0, _ :: _ => none
  | fuel + 1, b :: rest =>
    if b < 0x80 then (utf8DecodeLoop fuel rest).map (b :: ·)
    else if 0xC2 ≤ b ∧ b ≤ 0xDF then
      if 0x80 ≤ rest.headI ∧ rest.headI ≤ 0xBF then
        (utf8DecodeLoop fuel (rest.drop 1)).map
          (((b - 0xC0) * 0x40 + (rest.headI - 0x80)) :: ·)
      else none
    else if 0xE0 ≤ b ∧ b ≤ 0xEF then
      if ((if b = 0xE0 then 0xA0 else 0x80) ≤ rest.headI ∧
            rest.headI ≤ (if b = 0xED then 0x9F else 0xBF)) ∧
          (0x80 ≤ (rest.drop 1).headI ∧ (rest.drop 1).headI ≤ 0xBF) then
        (utf8DecodeLoop fuel (rest.drop 2)).map
          (((b - 0xE0) * 0x1000 + (rest.headI - 0x80) * 0x40 +
            ((rest.drop 1).headI - 0x80)) :: ·)
      else none
    else if 0xF0 ≤ b ∧ b ≤ 0xF4 then
      if ((if b = 0xF0 then 0x90 else 0x80) ≤ rest.headI ∧
            rest.headI ≤ (if b = 0xF4 then 0x8F else 0xBF)) ∧
          (0x80 ≤ (rest.drop 1).headI ∧ (rest.drop 1).headI ≤ 0xBF) ∧
          (0x80 ≤ (rest.drop 2).headI ∧ (rest.drop 2).headI ≤ 0xBF) then
        (utf8DecodeLoop fuel (rest.drop 3)).map
          (((b - 0xF0) * 0x40000 + (rest.headI - 0x80) * 0x1000 +
            ((rest.drop 1).headI - 0x80) * 0x40 +
            ((rest.drop 2).headI - 0x80)) :: ·)
      else none
    else none

/-- Strict UTF-8 decoding to Unicode scalar values; `none` on any
malformed sequence, exactly as a fatal WHATWG decoder. -/
def utf8DecodeScalars (bytes : List Nat) : Option (List Nat) :=
  utf8DecodeLoop bytes.length bytes

/-- Scalar values back to a Lean string. -/
def scalarsToString (l : List Nat) : String :=
  ⟨l.map Char.ofNat⟩

/-- The `new TextDecoder("utf-8", { fatal: true }).decode`: strict decode;
per the WHATWG default (`ignoreBOM: false`) a single leading byte-order
mark U+FEFF is removed from the result. -/
def textDecodeFatal (bytes : List Nat) : Option String :=
  (utf8DecodeScalars bytes).map fun l =>
    scalarsToString (match l with | 0xFEFF :: rest => rest | other => other)

/-- JS `String.length` (UTF-16 code units): astral characters count
twice. -/
def utf16Length (s : String) : Nat :=
  s.data.foldl (fun n c => n + (if 0x10000 ≤ c.toNat then 2 else 1)) 0

/-! ## Base64 (isomorphicBtoa over `String.fromCharCode` of the bytes) -/

/-- The RFC 4648 base64 alphabet. -/
def base64Chars : List Char :=
  "ABCDEFGHIJKLMNOPQRSTUVWXYZabcdefghijklmnopqrstuvwxyz0123456789+/".data

/-- One base64 output character. -/
def b64Char (i : Nat) : Char := base64Chars.getD i '?'

/-- Base64 groups of three input bytes into four output characters,
padding with `=`. -/
def b64Chunks : List Nat → List Char
  | [] => []
  | [a] => [b64Char (a / 4), b64Char (a % 4 * 16), '=', '=']
  | [a, b] =>
    [b64Char (a / 4), b64Char (a % 4 * 16 + b / 16), b64Char (b % 16 * 4), '=']
  | a :: b :: c :: rest =>
    b64Char (a / 4) :: b64Char (a % 4 * 16 + b / 16) ::
      b64Char (b % 16 * 4 + c / 64) :: b64Char (c % 64) :: b64Chunks rest

/-- The `isomorphicBtoa(String.fromCharCode(...share))` from
src/utils/isomorphic-helpers.ts composed as in
`PasswordBasedEngine.createIdentity`: base64 of the raw bytes. -/
def base64Encode (bytes : List Nat) : String :=
  ⟨b64Chunks bytes⟩

/-! ## Evaluate-response parser (src/protobuf/parser.ts) -/

/-- The JS value returned by `decodeChaincodePayload`: `null`, a parsed
JSON structure, or a string. `α` is the type of parsed JSON values
produced by the external `JSON.parse`. -/
inductive DecodedPayload (α : Type) where
  | nullVal : DecodedPayload α
  | json : α → DecodedPayload α
  | str : String → DecodedPayload α
deriving DecidableEq, Repr

/-- The `decodeChaincodePayload` from src/protobuf/parser.ts. The external
`JSON.parse` is the parameter `jsonParse` (`none` models a parse
throw). An absent or empty payload yields `null`; invalid UTF-8 yields
`"(binary) 0x<hex>"`; a JSON string yields the parsed structure;
any other UTF-8 string is returned as decoded. -/
def decodeChaincodePayload (jsonParse : String → Option α) :
    Option (List Nat) → DecodedPayload α
  | none => .nullVal
  | some payloadBytes =>
    if payloadBytes.length = 0 then .nullVal
    else
      match textDecodeFatal payloadBytes with
      | some decodedString =>
        match jsonParse decodedString with
        | some j => .json j
        | none => .str decodedString
      | none => .str ("(binary) 0x" ++ bytesToHexString payloadBytes)

/-- The `parseEvaluateResponse` data part from src/protobuf/parser.ts: the
`parsedData` field is the decoded chaincode payload of the peer
`Response`. -/
structure PeerResponse where
  status : Nat
  message : String
  payload : Option (List Nat)

/-- The `{status, message, parsedData}` record built by
`parseEvaluateResponse` for a present response. -/
def parseEvaluateData (jsonParse : String → Option α) (r : PeerResponse) :
    Nat × String × DecodedPayload α :=
  (r.status, r.message, decodeChaincodePayload jsonParse r.payload)

/-! ## Message builder (src/protobuf/builder.ts)

The protobuf message schemas are external collaborators ("generated
protobuf message schemas (assumed available)"), so each `create`d
message is a Lean structure mirroring the fields the source sets, and
each `toBinary` call is a serialization function taken as a parameter
(bundled in `ProtoEncoders`). Serialization of a fixed message is
deterministic, which the function type expresses. -/

/-- The `SerializedIdentity { mspid, idBytes }`. -/
structure SerializedIdentityMsg where
  mspid : String
  idBytes : List Nat
deriving DecidableEq

/-- The `ChaincodeID { name }` as built by the source (path and version are
left unset). -/
structure ChaincodeIDMsg where
  name : String
deriving DecidableEq

/-- The `ChaincodeSpec { type, chaincodeId, input }`; `type` is the numeric
enum value, always `GOLANG` in the source. -/
structure ChaincodeSpecMsg where
  type : Nat
  chaincodeId : ChaincodeIDMsg
  input : List (List Nat)
deriving DecidableEq

/-- The `ChannelHeader` fields set by `buildProposalPayload`; the timestamp
is never set there. -/
structure ChannelHeaderMsg where
  type : Nat
  version : Nat
  channelId : String
  txId : String
  epoch : Nat
  extension : List Nat
deriving DecidableEq

/-- The `SignatureHeader { creator, nonce }`. -/
structure SignatureHeaderMsg where
  creator : List Nat
  nonce : List Nat
deriving DecidableEq

/-- The `Header { channelHeader, signatureHeader }` (both serialized). -/
structure HeaderMsg where
  channelHeader : List Nat
  signatureHeader : List Nat
deriving DecidableEq

/-- The `Proposal { header, payload }` (both serialized). -/
structure ProposalMsg where
  header : List Nat
  payload : List Nat
deriving DecidableEq

/-- The `toBinary` serializers for each schema used by the builder;
they stand for the fixed external `@bufbuild/protobuf` runtime. -/
structure ProtoEncoders where
  serializedIdentity : SerializedIdentityMsg → List Nat
  chaincodeInvocationSpec : ChaincodeSpecMsg → List Nat
  chaincodeProposalPayload : List Nat → List Nat
  chaincodeHeaderExtension : ChaincodeIDMsg → List Nat
  channelHeader : ChannelHeaderMsg → List Nat
  signatureHeader : SignatureHeaderMsg → List Nat
  header : HeaderMsg → List Nat
  proposal : ProposalMsg → List Nat

/-- The `HeaderType.ENDORSER_TRANSACTION` of Fabric's common.proto.
Modelled from the spec: channel-header `type = ENDORSER_TRANSACTION`
(the generated enum stubs are external). -/
def endorserTransactionType : Nat := 3

/-- The `ChaincodeSpec_Type.GOLANG`. Modelled from the spec: the proposal
sets the chaincode `type` to GOLANG unconditionally. -/
def golangType : Nat := 1

/-- The `ProposalParams` from src/models: `args` entries are strings or
byte arrays. -/
structure ProposalParams where
  mspId : String
  channelName : String
  chaincodeName : String
  functionName : String
  args : List (String ⊕ List Nat)

/-- Argument serialization in `buildProposalPayload`:
`typeof arg === "string" ? stringToUint8Array(arg) : arg`. -/
def argToBytes : String ⊕ List Nat → List Nat
  | .inl s => utf8Encode s
  | .inr b => b

/-- The `createSerializedIdentityBytes` from src/protobuf/builder.ts. -/
def createSerializedIdentityBytes (E : ProtoEncoders) (mspId certPem : String) :
    List Nat :=
  E.serializedIdentity ⟨mspId, utf8Encode certPem⟩

/-- The `{txId, nonce, creatorBytes}` record of
`generateTransactionId`. -/
structure TxContext where
  txId : String
  nonce : List Nat
  creatorBytes : List Nat

/-- The `generateTransactionId` from src/protobuf/builder.ts, with the
24-byte random nonce drawn by `getRandomValues` made an explicit input
and SHA-256 the external `sha` parameter. `combined` is the
concatenation `nonce || creatorBytes`. -/
def generateTransactionId (sha : List Nat → List Nat) (E : ProtoEncoders)
    (nonce : List Nat) (certPem mspId : String) : TxContext :=
  let creatorBytes := createSerializedIdentityBytes E mspId certPem
  let combined := nonce ++ creatorBytes
  ⟨bytesToHexString (sha combined), nonce, creatorBytes⟩

/-- The `buildProposalPayload` from src/protobuf/builder.ts: assembles the
`Proposal` bytes from the params, transaction id, creator bytes and
nonce, mirroring the source's message tree. -/
def buildProposalPayload (E : ProtoEncoders) (params : ProposalParams)
    (txId : String) (creatorBytes nonce : List Nat) : List Nat :=
  let ccId : ChaincodeIDMsg := ⟨params.chaincodeName⟩
  let argsAsBytes := utf8Encode params.functionName :: params.args.map argToBytes
  let ccInvocationSpec : ChaincodeSpecMsg := ⟨golangType, ccId, argsAsBytes⟩
  let ccProposalPayload := E.chaincodeProposalPayload
    (E.chaincodeInvocationSpec ccInvocationSpec)
  let channelHeader : ChannelHeaderMsg :=
    ⟨endorserTransactionType, 1, params.channelName, txId, 0,
      E.chaincodeHeaderExtension ccId⟩
  let signatureHeader : SignatureHeaderMsg := ⟨creatorBytes, nonce⟩
  let header : HeaderMsg :=
    ⟨E.channelHeader channelHeader, E.signatureHeader signatureHeader⟩
  E.proposal ⟨E.header header, ccProposalPayload⟩

/-! ## Custodian (src/identity/storage/indexeddb-store.ts
`PasswordBasedEngine`, src/identity/crypto-engine.ts `CryptoEngine`) -/

/-- The persisted `SealedIdentity` slice of the key store: the four
`pbe-fabric-*` keys. -/
structure SealedStore where
  encKey : Option (List Nat)
  cert : Option String
  salt : Option (List Nat)
  iv : Option (List Nat)
deriving DecidableEq

/-- The empty store: no sealed identity present. -/
def emptyStore : SealedStore := ⟨none, none, none, none⟩

/-- Error kinds surfaced by the custodian model. The source throws
plain `Error`s which `tryCatch` wraps; the constructors record which
failure occurred (spec kinds: InputInvalid, BadPassword,
StoreCorrupt). -/
inductive CustodianErr where
  | weakPassword
  | shortPassword
  | storeCorrupt
  | badPassword
  | importFailed
deriving DecidableEq, Repr

/-- External cryptographic collaborators of the password-based engine,
over an abstract signing-key type `K`:
`score` is zxcvbn, `mnemonic` the BIP-39 phrase `generateMnemonic`
returns in this run, `pbkdf2` is PBKDF2-HMAC-SHA256 applied to
(password bytes, salt, iterations, bit length), `aesEnc`/`aesDec` are
AES-GCM over (key, iv, data) with `aesDec = none` on authentication
failure, `importPKCS8` is jose's key import, `decodeText` the lossy
TextDecoder used on decrypted bytes, and `shamir` the share split over
(secret bytes, share count, threshold). -/
structure CryptoPrims (K : Type) where
  score : String → Nat
  mnemonic : String
  pbkdf2 : List Nat → List Nat → Nat → Nat → List Nat
  aesEnc : List Nat → List Nat → List Nat → List Nat
  aesDec : List Nat → List Nat → List Nat → Option (List Nat)
  importPKCS8 : String → Option K
  decodeText : List Nat → String
  shamir : List Nat → Nat → Nat → List (List Nat)

/-- JS truthiness of `options.password` (an absent or empty string is
falsy). -/
def passwordTruthy : Option String → Bool
  | some p => p ≠ ""
  | none => false

/-- The `CreatedIdentityData` returned by `createIdentity`. -/
structure CreatedIdentityData (K : Type) where
  key : K
  cert : String
  phrase : String
  recoveryShares : List String
deriving DecidableEq

/-- The `PasswordBasedEngine.deriveKeyMaterial`: PBKDF2-HMAC-SHA256 over
the UTF-8 password bytes and the salt, 250000 iterations, 256 bits. -/
def deriveKeyMaterial (P : CryptoPrims K) (password : String) (salt : List Nat) :
    List Nat :=
  P.pbkdf2 (utf8Encode password) salt 250000 256

/-- The `PasswordBasedEngine.createIdentity` from
src/identity/storage/indexeddb-store.ts. The fresh random `salt`
(16 bytes) and `iv` (12 bytes) requested from `getRandomValues` are
explicit inputs. Returns the run's outcome together with the final
store state: the sealed record is persisted before the jose key import
runs, so an import failure still leaves the record written, exactly as
in the source. -/
def createIdentity (P : CryptoPrims K) (salt iv : List Nat)
    (store : SealedStore) (certPem keyPem : String)
    (password : Option String) :
    Except CustodianErr (CreatedIdentityData K) × SealedStore :=
  let secretToUse :=
    match password with
    | some p => if p = "" then P.mnemonic else p
    | none => P.mnemonic
  if passwordTruthy password ∧ P.score (password.getD "") < 3 then
    (.error .weakPassword, store)
  else if passwordTruthy password ∧ utf16Length (password.getD "") < 8 then
    (.error .shortPassword, store)
  else
    let keyMaterial := deriveKeyMaterial P secretToUse salt
    let encryptedKeyPem := P.aesEnc keyMaterial iv (utf8Encode keyPem)
    let store1 : SealedStore :=
      ⟨some encryptedKeyPem, some certPem, some salt, some iv⟩
    match P.importPKCS8 keyPem with
    | none => (.error .importFailed, store1)
    | some signingKey =>
      let secretBytes := utf8Encode secretToUse
      let shares := P.shamir secretBytes 5 3
      let sharesAsBase64 := shares.map base64Encode
      (.ok ⟨signingKey, certPem, secretToUse, sharesAsBase64⟩, store1)

/-- The `PasswordBasedEngine.unlockIdentity` from
src/identity/storage/indexeddb-store.ts: read the four stored fields
(StoreCorrupt if any is missing), re-derive the key with the stored
salt, AES-GCM-decrypt (BadPassword on authentication failure), then
load the decrypted PEM as a signing key. Only `get`s touch the
store. -/
def unlockIdentity (P : CryptoPrims K) (store : SealedStore)
    (password : String) : Except CustodianErr (K × String) :=
  match store.encKey, store.salt, store.iv, store.cert with
  | some encryptedKey, some salt, some iv, some cert =>
    let keyMaterial := deriveKeyMaterial P password salt
    match P.aesDec keyMaterial iv encryptedKey with
    | none => .error .badPassword
    | some keyPemBytes =>
      match P.importPKCS8 (P.decodeText keyPemBytes) with
      | none => .error .importFailed
      | some signingKey => .ok (signingKey, cert)
  | _, _, _, _ => .error .storeCorrupt

/-- The `PasswordBasedEngine.deleteIdentity`: all four sealed-record keys
are removed (via `clear` when the store offers it, else four `del`s;
either way the record is gone). -/
def deleteIdentityStore (_store : SealedStore) : SealedStore :=
  emptyStore

/-- The `CryptoEngine` in-memory slot state
(src/identity/crypto-engine.ts): `unlockedKey` and `unlockedCert`. -/
structure EngineState (K : Type) where
  unlockedKey : Option K
  unlockedCert : Option String
deriving DecidableEq

/-- The `CryptoEngine.performAction` for `WorkerAction.UnlockIdentity`
(src/identity/crypto-engine.ts lines 106-115): on success both
in-memory fields are set; on failure both are set to `null`. The
store is only read. -/
def performUnlock (P : CryptoPrims K) (es : EngineState K)
    (store : SealedStore) (password : String) :
    Except CustodianErr (K × String) × EngineState K × SealedStore :=
  match unlockIdentity P store password with
  | .ok (k, c) => (.ok (k, c), ⟨some k, some c⟩, store)
  | .error e =>
    let _ := es
    (.error e, ⟨none, none⟩, store)

/-- The `CryptoEngine.performAction` for `WorkerAction.DeleteIdentity`
(src/identity/crypto-engine.ts lines 117-120): the engine deletes the
sealed record and then sets `unlockedKey = null`; `unlockedCert` is
not assigned. -/
def performDelete (es : EngineState K) (store : SealedStore) :
    EngineState K × SealedStore :=
  (⟨none, es.unlockedCert⟩, deleteIdentityStore store)

/-! ## Gateway client (src/client/fabric-client.ts `FabricClient`) -/

/-- The `Result<T>` shape from src/models: `Ok(data)` or
`Err(message)`. `tryCatch` converts a thrown `Error` through
`getGroundedError`, which for a plain `Error` returns its message
unchanged (src/utils/error-parser.ts line 37-38), so the error value is
modelled by its message string. -/
inductive ClientResult (T : Type) where
  | ok : T → ClientResult T
  | err : String → ClientResult T
deriving DecidableEq, Repr

/-- The `TxValidationCode.VALID` of Fabric's transaction.proto. Modelled
from the spec: `commit_status ∈ {Valid} ∪ {Invalid(code)}` with VALID
the zero enum value of the published schema. -/
def validCode : Nat := 0

/-- The commit-failure message thrown by `FabricClient._waitForCommit`:
`Transaction ${txId} failed to commit with status: ${name} (${code})`.
`codeName` is the generated `TxValidationCode[...]` reverse enum
mapping (external stub). -/
def commitFailMessage (codeName : Nat → String) (txId : String)
    (code : Nat) : String :=
  "Transaction " ++ txId ++ " failed to commit with status: " ++
    codeName code ++ " (" ++ toString code ++ ")"

/-- The `FabricClient._waitForCommit` outcome given the gateway's
`commitStatus` result code: throws the commit-failure message whenever
the code is not VALID. -/
def waitForCommit (codeName : Nat → String) (txId : String)
    (commitCode : Nat) : Except String Unit :=
  if commitCode = validCode then .ok ()
  else .error (commitFailMessage codeName txId commitCode)

/-- The `FabricClient.submitAndCommit` orchestration: endorse (which yields
the prepared transaction envelope payload), decode of that envelope via
`decodeChaincodePayload`, submit, then the commit-status check; the
first failing stage's message is returned. The transport outcomes of
the endorse and submit RPCs are inputs (`endorse` carries the
`preparedTransaction.payload` bytes on success). On success the result
is `{txId, result}` with `result` the decoded envelope payload. -/
def submitAndCommit (jsonParse : String → Option α)
    (codeName : Nat → String) (txId : String)
    (endorse : Except String (List Nat)) (submit : Except String Unit)
    (commitCode : Nat) : ClientResult (String × DecodedPayload α) :=
  match endorse with
  | .error e => .err e
  | .ok transactionEnvelope =>
    let simulatedResult :=
      decodeChaincodePayload jsonParse (some transactionEnvelope)
    match submit with
    | .error e => .err e
    | .ok () =>
      match waitForCommit codeName txId commitCode with
      | .error e => .err e
      | .ok () => .ok (txId, simulatedResult)

/-- Modelled from the spec: the endorser's reply as the gateway client
sees it. `preparedPayload` is the serialized `Payload` envelope
(`PreparedTransaction.envelope_payload`); `ccResponsePayload` is the
chaincode simulation `Response.payload` nested inside that envelope.
`FabricClient.submitAndCommit` reads only `preparedPayload`; the
nested response payload never reaches `decodeChaincodePayload` there. -/
structure EndorseReply where
  preparedPayload : List Nat
  ccResponsePayload : List Nat

/-- Modelled from the spec: a minimal serialized Fabric `Payload`
envelope (a single length-delimited `header` field of length zero,
bytes `0x0a 0x00`) whose embedded chaincode response payload is
absent, hence empty. -/
def minimalEnvelopeWithEmptyResponse : EndorseReply :=
  ⟨[0x0a, 0x00], []⟩

/-! ## FileStore (src/identity/storage/filestore.ts) -/

/-- Filesystem operations performed by a `FileStore` run, in order.
`mode` is the permission bits passed to `fs.writeFile` (`none` when
the call relies on the default; the `"utf-8"` argument in the source
is the encoding, not a mode). -/
inductive FsOp where
  | mkdirRec : String → FsOp
  | writeFile : String → String → Option Nat → FsOp
  | chmod : String → Nat → FsOp
  | rename : String → String → FsOp
  | readFile : String → FsOp
deriving DecidableEq, Repr

/-- The `FileStore.save` from src/identity/storage/filestore.ts (lines
63-70): a single direct `fs.writeFile(this.filePath, data, "utf-8")`
with no temporary file, no rename and no permission mode. -/
def fileStoreSave (filePath serialized : String) : List FsOp :=
  [.writeFile filePath serialized none]

/-- The filesystem trace of `FileStore.set` from
src/identity/storage/filestore.ts on its first call: `load()` reads
the existing file into the in-memory cache, the cache is updated in
memory, and `save()` writes the serialized cache back — via the
direct in-place write above. This is the store the engine constructs
(crypto-engine.ts imports `./storage/filestore`). -/
def fileStoreSet (filePath serialized : String) : List FsOp :=
  .readFile filePath :: fileStoreSave filePath serialized

/-- The hardened `FileStore.save` variant (the repository's other
FileStore source, cited lines 218-230): `mkdir -p` the directory, write
`<path>.tmp` with mode 0600, `chmod 0600`, then rename over the final
path. -/
def fileStoreSaveHardened (dirName filePath serialized : String) : List FsOp :=
  [.mkdirRec dirName,
   .writeFile (filePath ++ ".tmp") serialized (some 0o600),
   .chmod (filePath ++ ".tmp") 0o600,
   .rename (filePath ++ ".tmp") filePath]

/-- The spec's required write discipline for the persisted identity
file: the final path is never written directly (its content only ever
changes via a rename), every write carries owner-only permissions
0600, and some temporary file is renamed onto the final path. -/
def AtomicOwnerOnlySave (filePath : String) (ops : List FsOp) : Prop :=
  (∀ p d m, FsOp.writeFile p d m ∈ ops → p ≠ filePath ∧ m = some 0o600) ∧
  (∃ tmp, FsOp.rename tmp filePath ∈ ops)

/-! ## Concrete instantiations of the external collaborators

Used to evaluate the models on closed inputs: simple total functions
standing in for the runtime's crypto/JSON primitives. -/

/-- A concrete primitive set over `K := Nat`: zxcvbn always scores 4,
the run's mnemonic is `"m"`, PBKDF2 is concatenation of password bytes
and salt, AES-GCM encryption concatenates key, iv and data, decryption
authenticates only the key `[65, 9]` (the one PBKDF2 derives from
password `"A"` and salt `[9]`), key import always succeeds, and the
Shamir split returns `n` empty shares. -/
def P0 : CryptoPrims Nat where
  score := fun _ => 4
  mnemonic := "m"
  pbkdf2 := fun pw salt _ _ => pw ++ salt
  aesEnc := fun key iv data => key ++ iv ++ data
  aesDec := fun key iv ct => if key = [65, 9] then some (key ++ iv ++ ct) else none
  importPKCS8 := fun _ => some 0
  decodeText := fun _ => "PEM"
  shamir := fun _ n _ => List.replicate n []

/-- A sealed store as written by a create run under password `"A"`
with salt `[9]` and iv `[7]`. -/
def store0 : SealedStore := ⟨some [0], some "CERT", some [9], some [7]⟩

/-- A concrete 64-byte raw signature: R is 32 zero bytes, S is the
value 1. -/
def raw64 : List Nat := List.replicate 63 0 ++ [1]

/-- Trivial serializers standing in for the protobuf runtime. -/
def E0 : ProtoEncoders where
  serializedIdentity := fun m => m.idBytes
  chaincodeInvocationSpec := fun _ => []
  chaincodeProposalPayload := fun b => b
  chaincodeHeaderExtension := fun _ => []
  channelHeader := fun _ => []
  signatureHeader := fun _ => []
  header := fun _ => []
  proposal := fun m => m.header ++ m.payload

/-- A stand-in hash with the output shape of SHA-256: 32 zero bytes. -/
def sha0 : List Nat → List Nat := fun _ => List.replicate 32 0

/-- A concrete fresh 16-byte salt. -/
def salt16 : List Nat := List.replicate 16 1

/-- A concrete fresh 12-byte IV. -/
def iv12 : List Nat := List.replicate 12 2

/-- The identity data produced by the concrete create run
`createRun0`. -/
def created0 : CreatedIdentityData Nat := ⟨0, "C", "m", ["", "", "", "", ""]⟩

/-- A concrete passwordless create run over the `P0` primitives. -/
def createRun0 : Except CustodianErr (CreatedIdentityData Nat) × SealedStore :=
  createIdentity P0 salt16 iv12 emptyStore "C" "K" none

/-! ## Byte-arithmetic lemmas -/

theorem foldl_byte (l : List Nat) (acc : Nat) :
    l.foldl (fun a b => a * 256 + b) acc = acc * 256 ^ l.length + bytesToNat l := by
  induction l generalizing acc with
  | nil => simp [bytesToNat]
  | cons b l ih =>
    simp only [List.foldl_cons, List.length_cons, bytesToNat]
    rw [ih (acc * 256 + b), ih (0 * 256 + b)]
    ring

theorem bytesToNat_cons (b : Nat) (l : List Nat) :
    bytesToNat (b :: l) = b * 256 ^ l.length + bytesToNat l := by
  simpa [bytesToNat] using foldl_byte l b

theorem bytesToNat_zero_cons (l : List Nat) :
    bytesToNat (0 :: l) = bytesToNat l := by
  simp [bytesToNat_cons]

theorem bytesToNat_append_one (l : List Nat) (b : Nat) :
    bytesToNat (l ++ [b]) = bytesToNat l * 256 + b := by
  simp [bytesToNat, List.foldl_append]

theorem natToBytesBE_length : ∀ len n, (natToBytesBE len n).length = len
  | 0, _ => rfl
  | len + 1, n => by
    simp [natToBytesBE, natToBytesBE_length len]

theorem natToBytesBE_bytes_lt : ∀ len n, ∀ b ∈ natToBytesBE len n, b < 256
  | 0, _ => by simp [natToBytesBE]
  | len + 1, n => by
    intro b hb
    simp only [natToBytesBE, List.mem_append, List.mem_singleton] at hb
    rcases hb with hb | hb
    · exact natToBytesBE_bytes_lt len (n / 256) b hb
    · omega

theorem bytesToNat_natToBytesBE : ∀ len n, n < 256 ^ len →
    bytesToNat (natToBytesBE len n) = n
  | 0, n, h => by
    simp only [natToBytesBE, bytesToNat, List.foldl_nil]
    omega
  | len + 1, n, h => by
    have hdiv : n / 256 < 256 ^ len := by
      rw [Nat.div_lt_iff_lt_mul (by norm_num)]
      calc n < 256 ^ (len + 1) := h
        _ = 256 ^ len * 256 := by ring
    rw [natToBytesBE, bytesToNat_append_one,
      bytesToNat_natToBytesBE len (n / 256) hdiv]
    omega

/-! ## Stripping and padding lemmas for the DER encoder -/

theorem stripZeros_value : ∀ l : List Nat, bytesToNat (stripZeros l) = bytesToNat l
  | [] => rfl
  | [b] => by simp [stripZeros]
  | 0 :: b :: rest => by
    by_cases hb : b < 0x80
    · rw [show stripZeros (0 :: b :: rest) = stripZeros (b :: rest) by
        simp [stripZeros, hb]]
      rw [stripZeros_value (b :: rest), bytesToNat_zero_cons]
    · simp [stripZeros, hb]
  | (a + 1) :: b :: rest => by simp [stripZeros]

theorem stripZeros_ne_nil : ∀ l : List Nat, l ≠ [] → stripZeros l ≠ []
  | [b], _ => by simp [stripZeros]
  | 0 :: b :: rest, _ => by
    by_cases hb : b < 0x80
    · rw [show stripZeros (0 :: b :: rest) = stripZeros (b :: rest) by
        simp [stripZeros, hb]]
      exact stripZeros_ne_nil (b :: rest) (by simp)
    · simp [stripZeros, hb]
  | (a + 1) :: b :: rest, _ => by simp [stripZeros]

theorem stripZeros_mem : ∀ l : List Nat, ∀ b ∈ stripZeros l, b ∈ l
  | [], b, hb => by simp [stripZeros] at hb
  | [x], b, hb => by simpa [stripZeros] using hb
  | 0 :: x :: rest, b, hb => by
    by_cases hx : x < 0x80
    · rw [show stripZeros (0 :: x :: rest) = stripZeros (x :: rest) by
        simp [stripZeros, hx]] at hb
      have := stripZeros_mem (x :: rest) b hb
      simp only [List.mem_cons] at this ⊢
      tauto
    · simp only [stripZeros, if_neg hx] at hb
      exact hb
  | (a + 1) :: x :: rest, b, hb => by
    simpa [stripZeros] using hb

theorem stripZeros_minimal : ∀ l : List Nat, ∀ a b rest2,
    stripZeros l = a :: b :: rest2 → a = 0 → 0x80 ≤ b
  | [], a, b, rest2 => by simp [stripZeros]
  | [x], a, b, rest2 => by simp [stripZeros]
  | 0 :: x :: rest, a, b, rest2 => by
    intro heq ha
    by_cases hx : x < 0x80
    · rw [show stripZeros (0 :: x :: rest) = stripZeros (x :: rest) by
        simp [stripZeros, hx]] at heq
      exact stripZeros_minimal (x :: rest) a b rest2 heq ha
    · simp only [stripZeros, if_neg hx] at heq
      obtain ⟨rfl, rfl, rfl⟩ : 0 = a ∧ x = b ∧ rest = rest2 := by
        simpa using heq
      omega
  | (a0 + 1) :: x :: rest, a, b, rest2 => by
    intro heq ha
    simp only [stripZeros] at heq
    obtain ⟨h1, h2, h3⟩ : a0 + 1 = a ∧ x = b ∧ rest = rest2 := by
      simpa using heq
    omega

theorem padPositive_value (l : List Nat) :
    bytesToNat (padPositive l) = bytesToNat l := by
  cases l with
  | nil => rfl
  | cons b rest =>
    by_cases hb : 0x80 ≤ b
    · simp [padPositive, hb, bytesToNat_zero_cons]
    · simp [padPositive, hb]

theorem padPositive_valid (l : List Nat) (hne : l ≠ [])
    (hmin : ∀ a b rest2, l = a :: b :: rest2 → a = 0 → 0x80 ≤ b) :
    ValidDerInt (padPositive l) := by
  cases l with
  | nil => exact absurd rfl hne
  | cons a rest =>
    by_cases ha : 0x80 ≤ a
    · simp only [padPositive, if_pos ha]
      cases rest <;> exact ⟨by omega, fun _ => ha⟩
    · simp only [padPositive, if_neg ha]
      cases rest with
      | nil => simpa [ValidDerInt] using by omega
      | cons b rest2 =>
        exact ⟨by omega, fun h0 => hmin a b rest2 rfl h0⟩

/-- The combined guarantee of strip-then-pad: the result is a valid
minimal DER INTEGER body encoding the same value as the input. -/
theorem derInt_spec (l : List Nat) (hne : l ≠ []) :
    ValidDerInt (padPositive (stripZeros l)) ∧
    bytesToNat (padPositive (stripZeros l)) = bytesToNat l := by
  refine ⟨padPositive_valid (stripZeros l) (stripZeros_ne_nil l hne)
    (stripZeros_minimal l), ?_⟩
  rw [padPositive_value, stripZeros_value]

theorem pOrderN_odd : pOrderN = 2 * halfN + 1 := by decide

theorem pOrderN_lt_pow : pOrderN < 256 ^ 32 := by decide

/-- C1: for every 64-byte raw ECDSA-P256 signature `R||S` with `S`
below the group order, `signFabricSignature`'s encoding step returns a
DER `SEQUENCE` of two INTEGERs; the S INTEGER's value is `N - S`
whenever `S > N/2` (else `S`), that value is at most `N/2`, the
normalized S half is re-emitted as 32 big-endian bytes, and both
INTEGER bodies are minimally encoded with a clear high bit on the
leading byte (a leading `0x00` only when the next byte's high bit is
set). -/
theorem signer_der_lowS (raw : List Nat) (hlen : raw.length = 64)
    (hbytes : ∀ b ∈ raw, b < 256)
    (hsN : bytesToNat (raw.drop 32) < pOrderN) :
    ∃ R S,
      signEncode raw =
        0x30 :: (R.length + S.length + 4) ::
          0x02 :: R.length :: (R ++ 0x02 :: S.length :: S) ∧
      bytesToNat R = bytesToNat (raw.take 32) ∧
      bytesToNat S = (if halfN < bytesToNat (raw.drop 32) then
        pOrderN - bytesToNat (raw.drop 32) else bytesToNat (raw.drop 32)) ∧
      bytesToNat S ≤ halfN ∧
      ValidDerInt R ∧ ValidDerInt S ∧
      (halfN < bytesToNat (raw.drop 32) →
        (preventMalleability raw).drop 32 =
          natToBytesBE 32 (pOrderN - bytesToNat (raw.drop 32)) ∧
        ((preventMalleability raw).drop 32).length = 32) := by
  have h642 : (64 : Nat) / 2 = 32 := by norm_num
  set r0 := raw.take 32 with hr0
  set s0 := raw.drop 32 with hs0
  have hr0len : r0.length = 32 := by simp [hr0, hlen]
  have hs0len : s0.length = 32 := by simp [hs0, hlen]
  set sNew := if halfN < bytesToNat s0 then
    natToBytesBE 32 (pOrderN - bytesToNat s0) else s0 with hsNew
  have hpm : preventMalleability raw = r0 ++ sNew := by
    simp only [preventMalleability, hlen, h642, hsNew, hr0, hs0]
    by_cases h : halfN < bytesToNat (raw.drop 32) <;> simp [h]
  have hsNewlen : sNew.length = 32 := by
    rw [hsNew]
    by_cases h : halfN < bytesToNat s0
    · rw [if_pos h, natToBytesBE_length]
    · rw [if_neg h, hs0len]
  have hsNewbytes : ∀ b ∈ sNew, b < 256 := by
    rw [hsNew]
    by_cases h : halfN < bytesToNat s0
    · rw [if_pos h]; exact natToBytesBE_bytes_lt 32 _
    · rw [if_neg h]
      exact fun b hb => hbytes b ((List.drop_sublist _ _).subset hb)
  have htake : (r0 ++ sNew).take 32 = r0 := List.take_left' hr0len
  have hdrop : (r0 ++ sNew).drop 32 = sNew := List.drop_left' hr0len
  have hRspec := derInt_spec r0 (by
    intro h; rw [h] at hr0len; exact absurd hr0len (by norm_num))
  have hSspec := derInt_spec sNew (by
    intro h; rw [h] at hsNewlen; exact absurd hsNewlen (by norm_num))
  have hSval : bytesToNat (padPositive (stripZeros sNew)) =
      (if halfN < bytesToNat s0 then pOrderN - bytesToNat s0
        else bytesToNat s0) := by
    rw [hSspec.2, hsNew]
    by_cases h : halfN < bytesToNat s0
    · rw [if_pos h, if_pos h,
        bytesToNat_natToBytesBE 32 _ (by have := pOrderN_lt_pow; omega)]
    · rw [if_neg h, if_neg h]
  refine ⟨padPositive (stripZeros r0), padPositive (stripZeros sNew),
    ?_, hRspec.2, hSval, ?_, hRspec.1, hSspec.1, ?_⟩
  · simp only [signEncode, hpm, rsToDer, List.length_append, hr0len, hsNewlen,
      h642, Nat.reduceAdd, htake, hdrop]
    simp only [List.cons.injEq, List.length_cons, List.length_append,
      true_and, and_true]
    omega
  · rw [hSval]
    by_cases h : halfN < bytesToNat s0
    · rw [if_pos h]
      have := pOrderN_odd
      omega
    · rw [if_neg h]
      omega
  · intro h
    rw [hpm, hdrop]
    refine ⟨?_, hsNewlen⟩
    rw [hsNew, if_pos h]

/-- Witness for C1 at the concrete raw signature `raw64`
(R = 0, S = 1). -/
theorem signer_der_lowS_witness :
    ∃ R S,
      signEncode raw64 =
        0x30 :: (R.length + S.length + 4) ::
          0x02 :: R.length :: (R ++ 0x02 :: S.length :: S) ∧
      bytesToNat R = bytesToNat (raw64.take 32) ∧
      bytesToNat S = (if halfN < bytesToNat (raw64.drop 32) then
        pOrderN - bytesToNat (raw64.drop 32) else bytesToNat (raw64.drop 32)) ∧
      bytesToNat S ≤ halfN ∧
      ValidDerInt R ∧ ValidDerInt S ∧
      (halfN < bytesToNat (raw64.drop 32) →
        (preventMalleability raw64).drop 32 =
          natToBytesBE 32 (pOrderN - bytesToNat (raw64.drop 32)) ∧
        ((preventMalleability raw64).drop 32).length = 32) :=
  signer_der_lowS raw64 (by decide) (by decide) (by decide)

/-! ## Hex-string lemmas -/

theorem toHexDigits_small (n : Nat) (h : n < 16) :
    toHexDigits n = [hexDigitChar n] := by
  rw [toHexDigits]
  simp [h]

theorem toHexDigits_mid (n : Nat) (h1 : 16 ≤ n) (h2 : n < 256) :
    toHexDigits n = [hexDigitChar (n / 16), hexDigitChar (n % 16)] := by
  rw [toHexDigits]
  rw [dif_neg (by omega)]
  rw [toHexDigits_small (n / 16) (by omega)]
  rfl

theorem byteToHexPadded_length (b : Nat) (hb : b < 256) :
    (byteToHexPadded b).length = 2 := by
  rw [byteToHexPadded]
  by_cases h : b < 16
  · rw [toHexDigits_small b h]
    rfl
  · rw [toHexDigits_mid b (by omega) hb]
    rfl

theorem hexDigitChar_mem (d : Nat) (h : d < 16) :
    hexDigitChar d ∈ ("0123456789abcdef".data) := by
  revert h
  revert d
  decide

theorem byteToHexPadded_mem (b : Nat) (hb : b < 256) :
    ∀ c ∈ byteToHexPadded b, c ∈ ("0123456789abcdef".data) := by
  intro c hc
  rw [byteToHexPadded] at hc
  by_cases h : b < 16
  · rw [toHexDigits_small b h] at hc
    simp only [List.length_singleton] at hc
    norm_num at hc
    rcases hc with rfl | rfl
    · decide
    · exact hexDigitChar_mem b h
  · rw [toHexDigits_mid b (by omega) hb] at hc
    norm_num at hc
    rcases hc with rfl | rfl
    · exact hexDigitChar_mem (b / 16) (by omega)
    · exact hexDigitChar_mem (b % 16) (by omega)

theorem bytesToHexString_length (bytes : List Nat) (h : ∀ b ∈ bytes, b < 256) :
    (bytesToHexString bytes).length = 2 * bytes.length := by
  induction bytes with
  | nil => rfl
  | cons b rest ih =>
    have hb : b < 256 := h b (by simp)
    have hrest := ih (fun x hx => h x (by simp [hx]))
    simp only [bytesToHexString, String.length, List.map_cons, List.flatten_cons,
      List.length_append, List.length_cons] at hrest ⊢
    rw [byteToHexPadded_length b hb]
    omega

theorem bytesToHexString_chars (bytes : List Nat) (h : ∀ b ∈ bytes, b < 256) :
    ∀ c ∈ (bytesToHexString bytes).data, c ∈ ("0123456789abcdef".data) := by
  intro c hc
  simp only [bytesToHexString, List.mem_flatten, List.mem_map] at hc
  obtain ⟨l, ⟨b, hb, rfl⟩, hcl⟩ := hc
  exact byteToHexPadded_mem b (h b hb) c hcl

/-- C2: the transaction id produced by `generateTransactionId` is the
lowercase 64-hex-character rendering of `SHA-256(nonce || creator_bytes)`
and depends only on those two inputs, and `buildProposalPayload` is a
pure function of `(params, txId, creatorBytes, nonce)`: equal inputs
(in the four fields of `params` it reads; `mspId` is not one of them)
give byte-identical payloads. -/
theorem txId_formula_and_payload_pure
    (sha : List Nat → List Nat) (E : ProtoEncoders) (nonce : List Nat)
    (certPem mspId : String)
    (hsha32 : (sha (nonce ++ createSerializedIdentityBytes E mspId certPem)).length = 32)
    (hshaB : ∀ b ∈ sha (nonce ++ createSerializedIdentityBytes E mspId certPem), b < 256) :
    (generateTransactionId sha E nonce certPem mspId).txId =
      bytesToHexString
        (sha (nonce ++ (generateTransactionId sha E nonce certPem mspId).creatorBytes)) ∧
    (generateTransactionId sha E nonce certPem mspId).creatorBytes =
      createSerializedIdentityBytes E mspId certPem ∧
    (generateTransactionId sha E nonce certPem mspId).txId.length = 64 ∧
    (∀ c ∈ (generateTransactionId sha E nonce certPem mspId).txId.data,
      c ∈ ("0123456789abcdef".data)) ∧
    (∀ cert2 msp2, createSerializedIdentityBytes E msp2 cert2 =
        createSerializedIdentityBytes E mspId certPem →
      (generateTransactionId sha E nonce cert2 msp2).txId =
        (generateTransactionId sha E nonce certPem mspId).txId) ∧
    (∀ p p2 : ProposalParams, ∀ txId creator n2,
      p.channelName = p2.channelName → p.chaincodeName = p2.chaincodeName →
      p.functionName = p2.functionName → p.args = p2.args →
      buildProposalPayload E p txId creator n2 =
        buildProposalPayload E p2 txId creator n2) := by
  refine ⟨rfl, rfl, ?_, ?_, ?_, ?_⟩
  · show (bytesToHexString _).length = 64
    rw [bytesToHexString_length _ hshaB, hsha32]
  · exact bytesToHexString_chars _ hshaB
  · intro cert2 msp2 heq
    show bytesToHexString _ = bytesToHexString _
    rw [show createSerializedIdentityBytes E msp2 cert2 =
      createSerializedIdentityBytes E mspId certPem from heq]
  · intro p p2 txId creator n2 h1 h2 h3 h4
    cases p
    cases p2
    simp only at h1 h2 h3 h4
    subst h1
    subst h2
    subst h3
    subst h4
    rfl

/-- Witness for C2 at concrete stand-ins for SHA-256 and the protobuf
runtime. -/
theorem txId_formula_and_payload_pure_witness :
    (generateTransactionId sha0 E0 [] "c" "m").txId =
      bytesToHexString
        (sha0 ([] ++ (generateTransactionId sha0 E0 [] "c" "m").creatorBytes)) ∧
    (generateTransactionId sha0 E0 [] "c" "m").creatorBytes =
      createSerializedIdentityBytes E0 "m" "c" ∧
    (generateTransactionId sha0 E0 [] "c" "m").txId.length = 64 ∧
    (∀ c ∈ (generateTransactionId sha0 E0 [] "c" "m").txId.data,
      c ∈ ("0123456789abcdef".data)) ∧
    (∀ cert2 msp2, createSerializedIdentityBytes E0 msp2 cert2 =
        createSerializedIdentityBytes E0 "m" "c" →
      (generateTransactionId sha0 E0 [] cert2 msp2).txId =
        (generateTransactionId sha0 E0 [] "c" "m").txId) ∧
    (∀ p p2 : ProposalParams, ∀ txId creator n2,
      p.channelName = p2.channelName → p.chaincodeName = p2.chaincodeName →
      p.functionName = p2.functionName → p.args = p2.args →
      buildProposalPayload E0 p txId creator n2 =
        buildProposalPayload E0 p2 txId creator n2) :=
  txId_formula_and_payload_pure sha0 E0 [] "c" "m" (by decide) (by decide)

/-! ## Custodian theorems -/

/-- C3 counterexample: a custodian sealed under password `"A"` but
currently holding an unlocked key (`unlockedKey = some 5`) loses that
key on a failed `unlockIdentity` with password `"B"`: the call returns
the BadPassword-kind error, yet the in-memory `unlockedKey` does not
keep the value it had before the call — it is set to `none`. -/
theorem unlock_badPassword_counterexample :
    (performUnlock P0 ⟨some 5, some "CERT"⟩ store0 "B").1 =
      .error .badPassword ∧
    (performUnlock P0 ⟨some 5, some "CERT"⟩ store0 "B").2.1.unlockedKey = none ∧
    (⟨some 5, some "CERT"⟩ : EngineState Nat).unlockedKey = some 5 ∧
    (none : Option Nat) ≠ some 5 := by
  refine ⟨rfl, rfl, rfl, by simp⟩

/-- C3 (amended): when the derived key fails AEAD authentication
against a complete sealed record, `performAction(UnlockIdentity)`
returns the BadPassword-kind error, leaves the persisted sealed record
unchanged, and sets both in-memory fields to `null` (so a sealed
custodian stays sealed; a previously unlocked key is dropped). -/
theorem unlock_badPassword_state (K : Type) (P : CryptoPrims K)
    (es : EngineState K) (store : SealedStore) (password : String)
    (ek salt iv : List Nat) (cert : String)
    (hstore : store = ⟨some ek, some cert, some salt, some iv⟩)
    (hauth : P.aesDec (deriveKeyMaterial P password salt) iv ek = none) :
    performUnlock P es store password =
      (.error .badPassword, ⟨none, none⟩, store) := by
  subst hstore
  simp only [performUnlock, unlockIdentity, hauth]

/-- Witness for the amended C3 at the concrete primitives `P0` and
the record sealed under password `"A"`. -/
theorem unlock_badPassword_state_witness :
    performUnlock P0 ⟨some 5, some "CERT"⟩ store0 "B" =
      (.error .badPassword, ⟨none, none⟩, store0) :=
  unlock_badPassword_state Nat P0 ⟨some 5, some "CERT"⟩ store0 "B"
    [0] [9] [7] "CERT" rfl rfl

/-- C4: every successful `createIdentity` run persists exactly the
requested fresh 16-byte salt and 12-byte IV, stores as encrypted key
the AES-GCM ciphertext of the PEM key bytes under the key derived by
PBKDF2-HMAC-SHA256 with 250000 iterations and 256 bits from the
secret it returns, and returns the base64-encoded 5-of-3 Shamir shares
of the secret's UTF-8 bytes — exactly 5 of them. -/
theorem create_success_parameters (K : Type) (P : CryptoPrims K)
    (salt iv : List Nat) (store : SealedStore) (certPem keyPem : String)
    (password : Option String) (d : CreatedIdentityData K)
    (store2 : SealedStore)
    (hsalt : salt.length = 16) (hiv : iv.length = 12)
    (hshamir : ∀ s, (P.shamir s 5 3).length = 5)
    (hrun : createIdentity P salt iv store certPem keyPem password =
      (.ok d, store2)) :
    store2 = ⟨some (P.aesEnc (P.pbkdf2 (utf8Encode d.phrase) salt 250000 256)
        iv (utf8Encode keyPem)), some certPem, some salt, some iv⟩ ∧
    (∃ s, store2.salt = some s ∧ s.length = 16) ∧
    (∃ i, store2.iv = some i ∧ i.length = 12) ∧
    d.recoveryShares = (P.shamir (utf8Encode d.phrase) 5 3).map base64Encode ∧
    d.recoveryShares.length = 5 := by
  simp only [createIdentity, deriveKeyMaterial] at hrun
  split at hrun
  · exact absurd (congrArg Prod.fst hrun) (by simp)
  · split at hrun
    · exact absurd (congrArg Prod.fst hrun) (by simp)
    · split at hrun
      · exact absurd (congrArg Prod.fst hrun) (by simp)
      · have hfst := congrArg Prod.fst hrun
        have hsnd := congrArg Prod.snd hrun
        simp only at hfst hsnd
        have hd := Except.ok.inj hfst
        subst hd
        subst hsnd
        refine ⟨rfl, ⟨salt, rfl, hsalt⟩, ⟨iv, rfl, hiv⟩, rfl, ?_⟩
        simp [List.length_map, hshamir]

/-- Witness for C4: the concrete passwordless run `createRun0`. -/
theorem create_success_parameters_witness :
    createRun0.2 = ⟨some (P0.aesEnc
        (P0.pbkdf2 (utf8Encode created0.phrase) salt16 250000 256)
        iv12 (utf8Encode "K")), some "C", some salt16, some iv12⟩ ∧
    (∃ s, createRun0.2.salt = some s ∧ s.length = 16) ∧
    (∃ i, createRun0.2.iv = some i ∧ i.length = 12) ∧
    created0.recoveryShares =
      (P0.shamir (utf8Encode created0.phrase) 5 3).map base64Encode ∧
    created0.recoveryShares.length = 5 :=
  create_success_parameters Nat P0 salt16 iv12 emptyStore "C" "K" none
    created0 createRun0.2 (by decide) (by decide) (fun _ => rfl) rfl

/-- C5 counterexample: a call of `createIdentity` that supplies the
password `""` (length 0, below the required 8) is not rejected: the
empty string is JS-falsy, so every password check is skipped, a
mnemonic-sealed identity is created and the run succeeds. -/
theorem create_empty_password_counterexample :
    (createIdentity P0 [1] [2] emptyStore "C" "K" (some "")).1 =
      .ok ⟨0, "C", "m", ["", "", "", "", ""]⟩ ∧
    utf16Length "" < 8 := by
  exact ⟨rfl, by decide⟩

/-- C5 (amended): when a non-empty password is supplied and its zxcvbn
score is below 3 or its length below 8, `createIdentity` returns an
InputInvalid-kind error (weak or short password) and writes nothing:
the store is unchanged. -/
theorem create_rejects_weak_nonempty_password (K : Type) (P : CryptoPrims K)
    (salt iv : List Nat) (store : SealedStore) (certPem keyPem p : String)
    (hne : p ≠ "") (hbad : P.score p < 3 ∨ utf16Length p < 8) :
    (createIdentity P salt iv store certPem keyPem (some p)).2 = store ∧
    ((createIdentity P salt iv store certPem keyPem (some p)).1 =
        .error .weakPassword ∨
      (createIdentity P salt iv store certPem keyPem (some p)).1 =
        .error .shortPassword) := by
  have htr : passwordTruthy (some p) = true := by
    simp [passwordTruthy, hne]
  by_cases hs : P.score p < 3
  · simp [createIdentity, htr, hne, hs]
  · have hlen : utf16Length p < 8 := by tauto
    simp [createIdentity, htr, hne, hs, hlen]

/-- Witness for the amended C5: the short password `"abc"` is
rejected and the store is untouched. -/
theorem create_rejects_weak_nonempty_password_witness :
    (createIdentity P0 [1] [2] emptyStore "C" "K" (some "abc")).2 =
      emptyStore ∧
    ((createIdentity P0 [1] [2] emptyStore "C" "K" (some "abc")).1 =
        .error .weakPassword ∨
      (createIdentity P0 [1] [2] emptyStore "C" "K" (some "abc")).1 =
        .error .shortPassword) :=
  create_rejects_weak_nonempty_password Nat P0 [1] [2] emptyStore "C" "K"
    "abc" (by decide) (Or.inr (by decide))

/-- C8 counterexample: deleting from an unlocked custodian leaves the
in-memory `unlockedCert` holding its old value instead of `null`. -/
theorem delete_cert_counterexample :
    (performDelete (K := Nat) ⟨some 7, some "CERT"⟩ store0).1.unlockedCert =
      some "CERT" ∧
    some "CERT" ≠ (none : Option String) := by
  exact ⟨rfl, by simp⟩

/-- C8 (amended): after `performAction(DeleteIdentity)` the persisted
sealed record is removed and the in-memory `unlockedKey` is `null`,
while `unlockedCert` retains whatever value it had before the call. -/
theorem delete_state (K : Type) (es : EngineState K) (store : SealedStore) :
    (performDelete es store).2 = emptyStore ∧
    (performDelete es store).1.unlockedKey = none ∧
    (performDelete es store).1.unlockedCert = es.unlockedCert :=
  ⟨rfl, rfl, rfl⟩

/-! ## Gateway client theorems -/

theorem string_append_assoc (a b c : String) : a ++ b ++ c = a ++ (b ++ c) := by
  rcases a with ⟨la⟩
  rcases b with ⟨lb⟩
  rcases c with ⟨lc⟩
  show String.mk (la ++ lb ++ lc) = String.mk (la ++ (lb ++ lc))
  rw [List.append_assoc]

theorem decodeChaincodePayload_ne_nullVal (α : Type) (jp : String → Option α)
    (bytes : List Nat) (h : bytes ≠ []) :
    decodeChaincodePayload jp (some bytes) ≠ .nullVal := by
  have hlen : ¬ bytes.length = 0 := by
    simpa [List.length_eq_zero] using h
  simp only [decodeChaincodePayload, if_neg hlen]
  rcases textDecodeFatal bytes with _ | s
  · simp
  · rcases hjp : jp s with _ | j <;> simp [hjp]

/-- C6: after a successful endorse and submit stage, the commit-status
check of `submitAndCommit` fails with the commit-failure error whenever
the gateway's result code is not VALID — the message carries both the
transaction id and the validation code — and returns `{txId, result}`
when the code is VALID. -/
theorem submitAndCommit_commit_check (α : Type) (jsonParse : String → Option α)
    (codeName : Nat → String) (txId : String) (env : List Nat)
    (commitCode : Nat) (hc : commitCode ≠ validCode) :
    submitAndCommit jsonParse codeName txId (.ok env) (.ok ()) commitCode =
      .err (commitFailMessage codeName txId commitCode) ∧
    (∃ pre post, commitFailMessage codeName txId commitCode =
      pre ++ txId ++ post) ∧
    (∃ pre2 post2, commitFailMessage codeName txId commitCode =
      pre2 ++ codeName commitCode ++ post2) ∧
    submitAndCommit jsonParse codeName txId (.ok env) (.ok ()) validCode =
      .ok (txId, decodeChaincodePayload jsonParse (some env)) := by
  refine ⟨?_, ?_, ?_, ?_⟩
  · simp [submitAndCommit, waitForCommit, hc]
  · refine ⟨"Transaction ", " failed to commit with status: " ++
      codeName commitCode ++ " (" ++ toString commitCode ++ ")", ?_⟩
    simp only [commitFailMessage, string_append_assoc]
  · refine ⟨"Transaction " ++ txId ++ " failed to commit with status: ",
      " (" ++ toString commitCode ++ ")", ?_⟩
    simp only [commitFailMessage, string_append_assoc]
  · simp [submitAndCommit, waitForCommit]

/-- Witness for C6: a concrete MVCC_READ_CONFLICT (code 11) run and
the VALID run at the same inputs. -/
theorem submitAndCommit_commit_check_witness :
    submitAndCommit (fun _ => (none : Option Unit))
        (fun _ => "MVCC_READ_CONFLICT") "ab" (.ok []) (.ok ()) 11 =
      .err (commitFailMessage (fun _ => "MVCC_READ_CONFLICT") "ab" 11) ∧
    (∃ pre post, commitFailMessage (fun _ => "MVCC_READ_CONFLICT") "ab" 11 =
      pre ++ "ab" ++ post) ∧
    (∃ pre2 post2, commitFailMessage (fun _ => "MVCC_READ_CONFLICT") "ab" 11 =
      pre2 ++ "MVCC_READ_CONFLICT" ++ post2) ∧
    submitAndCommit (fun _ => (none : Option Unit))
        (fun _ => "MVCC_READ_CONFLICT") "ab" (.ok []) (.ok ()) validCode =
      .ok ("ab", decodeChaincodePayload (fun _ => (none : Option Unit))
        (some [])) :=
  submitAndCommit_commit_check Unit (fun _ => none)
    (fun _ => "MVCC_READ_CONFLICT") "ab" [] 11 (by decide)

/-- C10 counterexample: an endorse reply whose embedded chaincode
response payload is empty but whose prepared-transaction envelope is
the two-byte serialized `Payload` `0x0a 0x00`; `submitAndCommit`
decodes the envelope, so its result is the string `"\x0a\x00"`, not
`null`, even though the chaincode response is empty. -/
theorem submit_empty_response_counterexample :
    minimalEnvelopeWithEmptyResponse.ccResponsePayload = [] ∧
    submitAndCommit (fun _ => (none : Option Unit)) (fun _ => "VALID") "t"
        (.ok minimalEnvelopeWithEmptyResponse.preparedPayload) (.ok ())
        validCode =
      .ok ("t", .str "\x0a\x00") ∧
    DecodedPayload.str (α := Unit) "\x0a\x00" ≠ .nullVal := by
  exact ⟨rfl, by decide, by simp⟩

/-- C10 (amended): `decodeChaincodePayload` returns `null` for an
absent or empty payload, hence `parsedData` is `null` for an empty
chaincode response payload; `submitAndCommit` decodes the
prepared-transaction envelope payload, so its result is `null` exactly
when that envelope payload is empty. -/
theorem decode_empty_null (α : Type) (jp : String → Option α)
    (codeName : Nat → String) :
    decodeChaincodePayload jp none = .nullVal ∧
    decodeChaincodePayload jp (some []) = .nullVal ∧
    (∀ r : PeerResponse, r.payload = some [] →
      (parseEvaluateData jp r).2.2 = .nullVal) ∧
    (∀ txId env,
      submitAndCommit jp codeName txId (.ok env) (.ok ()) validCode =
        .ok (txId, decodeChaincodePayload jp (some env)) ∧
      (decodeChaincodePayload jp (some env) = .nullVal ↔ env = [])) := by
  refine ⟨rfl, rfl, ?_, ?_⟩
  · intro r hr
    simp [parseEvaluateData, hr, decodeChaincodePayload]
  · intro txId env
    refine ⟨by simp [submitAndCommit, waitForCommit], ?_, ?_⟩
    · intro h
      by_contra hne
      exact decodeChaincodePayload_ne_nullVal α jp env hne h
    · rintro rfl
      rfl

/-- Witness for the amended C10 at a concrete JSON stub, the empty
response payload, and the non-empty envelope `[65]`. -/
theorem decode_empty_null_witness :
    decodeChaincodePayload (fun _ => (none : Option Unit)) none = .nullVal ∧
    (parseEvaluateData (fun _ => (none : Option Unit))
      ⟨200, "ok", some []⟩).2.2 = .nullVal ∧
    (decodeChaincodePayload (fun _ => (none : Option Unit)) (some [65]) =
      .nullVal ↔ ([65] : List Nat) = []) := by
  have h := decode_empty_null Unit (fun _ => none) (fun _ => "")
  exact ⟨h.1, h.2.2.1 ⟨200, "ok", some []⟩ rfl, (h.2.2.2 "t" [65]).2⟩

/-! ## FileStore theorem -/

/-- C9: evaluated at its failing input, the `FileStore.save` of
src/identity/storage/filestore.ts — the store `CryptoEngine`
constructs — performs a single direct write of the identity file, and
a `set` call performs only a read plus that direct write: no rename
anywhere in the trace, no chmod anywhere, and every write goes to the
final path itself with no permission mode, so the required 0600
write-temp-and-rename discipline is violated; the repository's
hardened `FileStore.save` variant satisfies that discipline exactly. -/
theorem filestore_save_trace :
    fileStoreSave "fabric-web-client-identity.json" "data" =
      [.writeFile "fabric-web-client-identity.json" "data" none] ∧
    fileStoreSet "fabric-web-client-identity.json" "data" =
      [.readFile "fabric-web-client-identity.json",
        .writeFile "fabric-web-client-identity.json" "data" none] ∧
    ¬ AtomicOwnerOnlySave "fabric-web-client-identity.json"
        (fileStoreSave "fabric-web-client-identity.json" "data") ∧
    ¬ AtomicOwnerOnlySave "fabric-web-client-identity.json"
        (fileStoreSet "fabric-web-client-identity.json" "data") ∧
    (∀ src dst, FsOp.rename src dst ∉
      fileStoreSet "fabric-web-client-identity.json" "data") ∧
    (∀ q m, FsOp.chmod q m ∉
      fileStoreSet "fabric-web-client-identity.json" "data") ∧
    (∀ p2 d2 m2, FsOp.writeFile p2 d2 m2 ∈
        fileStoreSet "fabric-web-client-identity.json" "data" →
      p2 = "fabric-web-client-identity.json" ∧ m2 = none) ∧
    AtomicOwnerOnlySave "fabric-web-client-identity.json"
      (fileStoreSaveHardened "." "fabric-web-client-identity.json" "data") := by
  refine ⟨rfl, rfl, ?_, ?_, ?_, ?_, ?_, ?_, ?_⟩
  · intro hsave
    have := hsave.1 "fabric-web-client-identity.json" "data" none
      (by simp [fileStoreSave])
    exact this.1 rfl
  · intro hset
    have := hset.1 "fabric-web-client-identity.json" "data" none
      (by simp [fileStoreSet, fileStoreSave])
    exact this.1 rfl
  · intro src dst h
    simp [fileStoreSet, fileStoreSave] at h
  · intro q m h
    simp [fileStoreSet, fileStoreSave] at h
  · intro p2 d2 m2 h
    simp only [fileStoreSet, fileStoreSave, List.mem_cons,
      List.not_mem_nil, or_false] at h
    rcases h with h | h
    · exact FsOp.noConfusion h
    · obtain ⟨rfl, rfl, rfl⟩ := FsOp.writeFile.inj h
      exact ⟨rfl, rfl⟩
  · intro p d m hm
    simp only [fileStoreSaveHardened, List.mem_cons, List.not_mem_nil,
      or_false] at hm
    rcases hm with h | h | h | h
    · exact FsOp.noConfusion h
    · obtain ⟨rfl, rfl, rfl⟩ := FsOp.writeFile.inj h
      exact ⟨by decide, rfl⟩
    · exact FsOp.noConfusion h
    · exact FsOp.noConfusion h
  · exact ⟨"fabric-web-client-identity.json" ++ ".tmp",
      by simp [fileStoreSaveHardened]⟩

/-! ## UTF-8 round-trip lemmas -/

theorem char_toNat_valid (c : Char) :
    c.toNat < 0xD800 ∨ (0xDFFF < c.toNat ∧ c.toNat < 0x110000) :=
  c.valid

theorem utf8DecodeLoop_nil (fuel : Nat) : utf8DecodeLoop fuel [] = some [] := by
  cases fuel <;> rfl

/-- The fuel bound is irrelevant once it covers the byte count. -/
theorem utf8DecodeLoop_fuel_irrel : ∀ (fuel fuel2 : Nat) (l : List Nat),
    l.length ≤ fuel → l.length ≤ fuel2 →
    utf8DecodeLoop fuel l = utf8DecodeLoop fuel2 l := by
  intro fuel
  induction fuel with
  | zero =>
    intro fuel2 l h1 _
    have hl : l = [] := by
      cases l with
      | nil => rfl
      | cons b rest => simp at h1
    subst hl
    rw [utf8DecodeLoop_nil, utf8DecodeLoop_nil]
  | succ fuel ih =>
    intro fuel2 l h1 h2
    cases l with
    | nil => rw [utf8DecodeLoop_nil, utf8DecodeLoop_nil]
    | cons b rest =>
      cases fuel2 with
      | zero => simp at h2
      | succ f2 =>
        have hlen : rest.length ≤ fuel := by
          simp only [List.length_cons] at h1
          omega
        have hlen2 : rest.length ≤ f2 := by
          simp only [List.length_cons] at h2
          omega
        rw [utf8DecodeLoop, utf8DecodeLoop]
        split_ifs <;>
          first
          | rfl
          | exact congrArg _ (ih f2 rest hlen hlen2)
          | exact congrArg _ (ih f2 (rest.drop 1)
              (by simp [List.length_drop]; omega)
              (by simp [List.length_drop]; omega))
          | exact congrArg _ (ih f2 (rest.drop 2)
              (by simp [List.length_drop]; omega)
              (by simp [List.length_drop]; omega))
          | exact congrArg _ (ih f2 (rest.drop 3)
              (by simp [List.length_drop]; omega)
              (by simp [List.length_drop]; omega))

/-- One fuel step decodes exactly one encoded valid scalar off the
front of the stream. -/
theorem utf8DecodeLoop_encode_cons (fuel v : Nat)
    (hv : v < 0xD800 ∨ (0xDFFF < v ∧ v < 0x110000)) (rest : List Nat) :
    utf8DecodeLoop (fuel + 1) (utf8EncodeScalar v ++ rest) =
      (utf8DecodeLoop fuel rest).map (v :: ·) := by
  have hv4 : v < 0x110000 := by omega
  by_cases h1 : v < 0x80
  · have henc : utf8EncodeScalar v = [v] := by
      rw [utf8EncodeScalar, if_pos h1]
    rw [henc, List.cons_append, List.nil_append, utf8DecodeLoop]
    rw [if_pos h1]
  · by_cases h2 : v < 0x800
    · have henc : utf8EncodeScalar v = [0xC0 + v / 0x40, 0x80 + v % 0x40] := by
        rw [utf8EncodeScalar, if_neg h1, if_pos h2]
      rw [henc, List.cons_append, List.cons_append, List.nil_append,
        utf8DecodeLoop]
      simp only [List.headI, List.drop_succ_cons, List.drop_zero]
      rw [if_neg (show ¬ 0xC0 + v / 0x40 < 0x80 by omega),
        if_pos (show 0xC2 ≤ 0xC0 + v / 0x40 ∧ 0xC0 + v / 0x40 ≤ 0xDF by
          constructor <;> omega),
        if_pos (show 0x80 ≤ 0x80 + v % 0x40 ∧ 0x80 + v % 0x40 ≤ 0xBF by
          constructor <;> omega)]
      have hval : (0xC0 + v / 0x40 - 0xC0) * 0x40 + (0x80 + v % 0x40 - 0x80)
          = v := by omega
      rw [hval]
    · by_cases h3 : v < 0x10000
      · have henc : utf8EncodeScalar v =
            [0xE0 + v / 0x1000, 0x80 + v / 0x40 % 0x40, 0x80 + v % 0x40] := by
          rw [utf8EncodeScalar, if_neg h1, if_neg h2, if_pos h3]
        rw [henc, List.cons_append, List.cons_append, List.cons_append,
          List.nil_append, utf8DecodeLoop]
        simp only [List.headI, List.drop_succ_cons, List.drop_zero]
        have hcond : ((if 0xE0 + v / 0x1000 = 0xE0 then 0xA0 else 0x80) ≤
              0x80 + v / 0x40 % 0x40 ∧
            0x80 + v / 0x40 % 0x40 ≤
              (if 0xE0 + v / 0x1000 = 0xED then 0x9F else 0xBF)) ∧
            (0x80 ≤ 0x80 + v % 0x40 ∧ 0x80 + v % 0x40 ≤ 0xBF) := by
          refine ⟨⟨?_, ?_⟩, by omega, by omega⟩
          · split_ifs with he
            · omega
            · omega
          · split_ifs with hd
            · rcases hv with hlo | ⟨hhi, _⟩ <;> omega
            · omega
        rw [if_neg (show ¬ 0xE0 + v / 0x1000 < 0x80 by omega),
          if_neg (show ¬ (0xC2 ≤ 0xE0 + v / 0x1000 ∧
            0xE0 + v / 0x1000 ≤ 0xDF) by intro hcon; omega),
          if_pos (show 0xE0 ≤ 0xE0 + v / 0x1000 ∧ 0xE0 + v / 0x1000 ≤ 0xEF by
            constructor <;> omega),
          if_pos hcond]
        have hval : (0xE0 + v / 0x1000 - 0xE0) * 0x1000 +
            (0x80 + v / 0x40 % 0x40 - 0x80) * 0x40 +
            (0x80 + v % 0x40 - 0x80) = v := by omega
        rw [hval]
      · have henc : utf8EncodeScalar v =
            [0xF0 + v / 0x40000, 0x80 + v / 0x1000 % 0x40,
              0x80 + v / 0x40 % 0x40, 0x80 + v % 0x40] := by
          rw [utf8EncodeScalar, if_neg h1, if_neg h2, if_neg h3]
        rw [henc, List.cons_append, List.cons_append, List.cons_append,
          List.cons_append, List.nil_append, utf8DecodeLoop]
        simp only [List.headI, List.drop_succ_cons, List.drop_zero]
        have hcond : ((if 0xF0 + v / 0x40000 = 0xF0 then 0x90 else 0x80) ≤
              0x80 + v / 0x1000 % 0x40 ∧
            0x80 + v / 0x1000 % 0x40 ≤
              (if 0xF0 + v / 0x40000 = 0xF4 then 0x8F else 0xBF)) ∧
            (0x80 ≤ 0x80 + v / 0x40 % 0x40 ∧ 0x80 + v / 0x40 % 0x40 ≤ 0xBF) ∧
            (0x80 ≤ 0x80 + v % 0x40 ∧ 0x80 + v % 0x40 ≤ 0xBF) := by
          refine ⟨⟨?_, ?_⟩, ⟨by omega, by omega⟩, by omega, by omega⟩
          · split_ifs with he
            · omega
            · omega
          · split_ifs with hd
            · omega
            · omega
        rw [if_neg (show ¬ 0xF0 + v / 0x40000 < 0x80 by omega),
          if_neg (show ¬ (0xC2 ≤ 0xF0 + v / 0x40000 ∧
            0xF0 + v / 0x40000 ≤ 0xDF) by intro hcon; omega),
          if_neg (show ¬ (0xE0 ≤ 0xF0 + v / 0x40000 ∧
            0xF0 + v / 0x40000 ≤ 0xEF) by intro hcon; omega),
          if_pos (show 0xF0 ≤ 0xF0 + v / 0x40000 ∧
            0xF0 + v / 0x40000 ≤ 0xF4 by constructor <;> omega),
          if_pos hcond]
        have hval : (0xF0 + v / 0x40000 - 0xF0) * 0x40000 +
            (0x80 + v / 0x1000 % 0x40 - 0x80) * 0x1000 +
            (0x80 + v / 0x40 % 0x40 - 0x80) * 0x40 +
            (0x80 + v % 0x40 - 0x80) = v := by omega
        rw [hval]

theorem utf8EncodeScalar_length_pos (v : Nat) :
    1 ≤ (utf8EncodeScalar v).length := by
  rw [utf8EncodeScalar]
  split_ifs <;> simp

/-- Decoding the UTF-8 bytes of one valid scalar recovers it and
leaves the rest of the stream untouched. -/
theorem utf8DecodeScalars_encode_cons (v : Nat)
    (hv : v < 0xD800 ∨ (0xDFFF < v ∧ v < 0x110000)) (rest : List Nat) :
    utf8DecodeScalars (utf8EncodeScalar v ++ rest) =
      (utf8DecodeScalars rest).map (v :: ·) := by
  have hk := utf8EncodeScalar_length_pos v
  rw [utf8DecodeScalars, utf8DecodeScalars]
  have hlen : (utf8EncodeScalar v ++ rest).length =
      (rest.length + ((utf8EncodeScalar v).length - 1)) + 1 := by
    rw [List.length_append]
    omega
  rw [hlen, utf8DecodeLoop_encode_cons _ v hv rest,
    utf8DecodeLoop_fuel_irrel (rest.length + ((utf8EncodeScalar v).length - 1))
      rest.length rest (by omega) (le_refl _)]

/-- Decoding the UTF-8 encoding of a character list recovers exactly
its scalar values. -/
theorem utf8DecodeScalars_encode (s : List Char) :
    utf8DecodeScalars ((s.map (fun c => utf8EncodeScalar c.toNat)).flatten) =
      some (s.map Char.toNat) := by
  induction s with
  | nil => rfl
  | cons c rest ih =>
    simp only [List.map_cons, List.flatten_cons]
    rw [utf8DecodeScalars_encode_cons c.toNat (char_toNat_valid c), ih]
    rfl

theorem map_ofNat_toNat (l : List Char) :
    (l.map Char.toNat).map Char.ofNat = l := by
  rw [List.map_map]
  simp [Function.comp_def]

/-- The strict text decoder inverts the encoder on every string that
does not begin with a byte-order mark. -/
theorem textDecodeFatal_encode (s : String)
    (hbom : s.data.head? ≠ some (Char.ofNat 0xFEFF)) :
    textDecodeFatal (utf8Encode s) = some s := by
  rw [textDecodeFatal, utf8Encode, utf8DecodeScalars_encode s.data]
  simp only [Option.map_some']
  congr 1
  cases hd : s.data with
  | nil =>
    rcases s with ⟨l⟩
    have hl : l = [] := hd
    subst hl
    rfl
  | cons c cs =>
    have hc : c.toNat ≠ 0xFEFF := by
      intro h
      apply hbom
      rw [hd]
      simp only [List.head?_cons, Option.some.injEq]
      rw [← h, Char.ofNat_toNat]
    simp only [List.map_cons]
    split
    · rename_i rest2 heq
      have : c.toNat = 0xFEFF := by
        have := congrArg List.head? heq
        simpa using this
      exact absurd this hc
    · show scalarsToString (c.toNat :: cs.map Char.toNat) = s
      rw [scalarsToString]
      rcases s with ⟨l⟩
      have hl : l = c :: cs := hd
      subst hl
      show String.mk ((c.toNat :: cs.map Char.toNat).map Char.ofNat) = _
      rw [show (c.toNat :: cs.map Char.toNat) =
        (c :: cs).map Char.toNat from rfl]
      rw [map_ofNat_toNat]

theorem utf8EncodeScalar_ne_nil (v : Nat) : utf8EncodeScalar v ≠ [] := by
  rw [utf8EncodeScalar]
  split_ifs <;> simp

theorem utf8Encode_ne_nil (s : String) (h : s ≠ "") : utf8Encode s ≠ [] := by
  rcases s with ⟨l⟩
  cases l with
  | nil => exact absurd rfl h
  | cons c cs =>
    show utf8EncodeScalar c.toNat ++ _ ≠ []
    intro happ
    exact utf8EncodeScalar_ne_nil c.toNat (List.append_eq_nil.mp happ).1

/-! ## Evaluate-response parser theorems -/

/-- C7 counterexample: the empty payload is a byte string whose UTF-8
decoding is the string `""` (which does not parse as JSON), so the
claim requires the result `""`; `decodeChaincodePayload` returns
`null` instead. -/
theorem decode_empty_payload_counterexample :
    decodeChaincodePayload (fun _ => (none : Option Unit)) (some []) =
      .nullVal ∧
    textDecodeFatal [] = some "" ∧
    DecodedPayload.nullVal (α := Unit) ≠ .str "" := by
  exact ⟨rfl, rfl, by simp⟩

/-- C7 (amended): for every non-empty payload byte string, invalid
UTF-8 yields the string `"(binary) 0x"` followed by the lowercase hex
of the bytes; a payload decoding to a UTF-8 string that JSON-parses
yields the parsed structure; and a non-JSON UTF-8 payload round-trips:
for every non-empty string without a leading byte-order mark whose
content does not parse as JSON, decoding its UTF-8 bytes returns the
original string. -/
theorem decode_payload_branches (α : Type) (jp : String → Option α) :
    (∀ bytes : List Nat, bytes ≠ [] → utf8DecodeScalars bytes = none →
      decodeChaincodePayload jp (some bytes) =
        .str ("(binary) 0x" ++ bytesToHexString bytes)) ∧
    (∀ (bytes : List Nat) (s : String) (j : α), bytes ≠ [] →
      textDecodeFatal bytes = some s → jp s = some j →
      decodeChaincodePayload jp (some bytes) = .json j) ∧
    (∀ s : String, s ≠ "" → s.data.head? ≠ some (Char.ofNat 0xFEFF) →
      jp s = none →
      decodeChaincodePayload jp (some (utf8Encode s)) = .str s) := by
  refine ⟨?_, ?_, ?_⟩
  · intro bytes hne hdec
    have hlen : ¬ bytes.length = 0 := by
      simpa [List.length_eq_zero] using hne
    simp only [decodeChaincodePayload, if_neg hlen, textDecodeFatal, hdec]
    rfl
  · intro bytes s j hne htd hjp
    have hlen : ¬ bytes.length = 0 := by
      simpa [List.length_eq_zero] using hne
    simp only [decodeChaincodePayload, if_neg hlen, htd, hjp]
  · intro s hne hbom hjp
    have hlen : ¬ (utf8Encode s).length = 0 := by
      simpa [List.length_eq_zero] using utf8Encode_ne_nil s hne
    simp only [decodeChaincodePayload, if_neg hlen,
      textDecodeFatal_encode s hbom, hjp]

/-- Witness for the amended C7: the invalid byte `0xFF`, the JSON
payload `"A"` under a stub parser that accepts it, and the non-JSON
string `"hi"` round-tripping through its UTF-8 bytes. -/
theorem decode_payload_branches_witness :
    decodeChaincodePayload (fun _ => (none : Option Unit)) (some [0xFF]) =
      .str ("(binary) 0x" ++ bytesToHexString [0xFF]) ∧
    decodeChaincodePayload (fun _ => some ()) (some [65]) = .json () ∧
    decodeChaincodePayload (fun _ => (none : Option Unit))
      (some (utf8Encode "hi")) = .str "hi" := by
  refine ⟨(decode_payload_branches Unit (fun _ => none)).1 [0xFF]
      (by decide) (by decide),
    (decode_payload_branches Unit (fun _ => some ())).2.1 [65] "A" ()
      (by decide) (by decide) rfl,
    (decode_payload_branches Unit (fun _ => none)).2.2 "hi" (by decide)
      (by decide) rfl⟩

end HFClient
